import Mathlib

/-!
# SIMD-group matrix internals: lane addressing and tile accessors

A shallow embedding of `Documentation/old-simdgroup-matrix-internals.hpp` and
of the lambda `memcpyDeviceTransfer` of `Documentation/CppReference/main.cpp`.

* `ushort` values are natural numbers; every assignment to a `ushort` variable
  and every `ushort` return value is reduced modulo `65536`.
* A tile is a finite list of elements together with the list of memory
  instructions issued against it so far.  The source performs no bounds
  checking; an access outside the allocated elements is undefined behaviour
  there and is reported as `none` here.
* Floating-point addition is not modelled: the adder of the element type is a
  parameter `add` of the operations that use `+=`.  Floating-point `==` is
  modelled on bit patterns (`ieee_eq`).
-/

namespace SimdgroupMatrix

/-! ## Lane-position mapper -/

/-- Number of values of the 16-bit unsigned type `ushort`. -/
def USHORT_RANGE : Nat := 65536

/-- The thread's M index (`get_simdgroup_matrix_m`). -/
def get_simdgroup_matrix_m (lane_id quad_id : Nat) : Nat :=
  let QUADRANT_SPAN_M : Nat := 4
  let THREADS_PER_QUADRANT : Nat := 8
  let M_floor_of_quadrant := ((quad_id / 4) * QUADRANT_SPAN_M) % USHORT_RANGE
  let M_in_quadrant := ((lane_id / 2) % (THREADS_PER_QUADRANT / 2)) % USHORT_RANGE
  (M_floor_of_quadrant + M_in_quadrant) % USHORT_RANGE

/-- The thread's N index (`get_simdgroup_matrix_n`). -/
def get_simdgroup_matrix_n (lane_id quad_id : Nat) : Nat :=
  let N_floor_of_quadrant := ((quad_id &&& 2) * 2) % USHORT_RANGE
  let N_in_quadrant := ((lane_id % 2) * 2) % USHORT_RANGE
  (N_floor_of_quadrant + N_in_quadrant) % USHORT_RANGE

/-- The fragment coordinate (row, column) of element `slot` of lane `lane_id`,
with the quad of the lane taken as `lane_id / 4`. -/
def lane_slot_coord (lane_id slot : Nat) : Nat × Nat :=
  (get_simdgroup_matrix_m lane_id (lane_id / 4),
   get_simdgroup_matrix_n lane_id (lane_id / 4) + slot)

/-- The lane and slot that hold fragment coordinate (r, c). -/
def coord_lane_slot (r c : Nat) : Nat × Nat :=
  (16 * (r / 4) + 8 * (c / 4) + 2 * (r % 4) + (c % 4) / 2, c % 2)

/-! ## Tiles and memory instructions -/

/-- A two-component `ushort` vector (`vec<ushort, 2>`): `x` is the column and
`y` the row of an origin. -/
structure ushort2 where
  x : Nat
  y : Nat
deriving DecidableEq

/-- One memory instruction issued against a tile: whether it is an atomic
instruction, whether it writes, the offset of its first element and the number
of consecutive elements it covers. -/
structure Access where
  atomic : Bool
  store : Bool
  offset : Nat
  count : Nat
deriving DecidableEq

/-- The element offsets one instruction covers. -/
def Access.elements (a : Access) : List Nat :=
  List.range' a.offset a.count

/-- The element offsets a sequence of instructions covers, in program order. -/
def footprint : List Access → List Nat
  | [] => []
  | a :: rest => a.elements ++ footprint rest

/-- The memory a `block` / `ptr` argument points into: the allocated elements
from the pointer onwards, and the instructions issued so far. -/
structure Tile (α : Type) where
  cells : List α
  trace : List Access

/-- A scalar load `*p` of the element at offset `k`. -/
def Tile.load1 {α : Type} (t : Tile α) (atomic : Bool) (k : Nat) : Option (α × Tile α) :=
  match t.cells[k]? with
  | some v => some (v, ⟨t.cells, t.trace ++ [⟨atomic, false, k, 1⟩]⟩)
  | none => none

/-- A two-element vector load `*(real2_ptr)p` of the elements at offsets `k`
and `k + 1`. -/
def Tile.load2 {α : Type} (t : Tile α) (atomic : Bool) (k : Nat) :
    Option ((α × α) × Tile α) :=
  match t.cells[k]?, t.cells[k + 1]? with
  | some v0, some v1 => some ((v0, v1), ⟨t.cells, t.trace ++ [⟨atomic, false, k, 2⟩]⟩)
  | _, _ => none

/-- A scalar store `*p = v` to the element at offset `k`. -/
def Tile.store1 {α : Type} (t : Tile α) (atomic : Bool) (k : Nat) (v : α) :
    Option (Tile α) :=
  if k < t.cells.length then
    some ⟨t.cells.set k v, t.trace ++ [⟨atomic, true, k, 1⟩]⟩
  else none

/-- A two-element vector store `*(real2_ptr)p = v` to the elements at offsets
`k` and `k + 1`. -/
def Tile.store2 {α : Type} (t : Tile α) (atomic : Bool) (k : Nat) (v : α × α) :
    Option (Tile α) :=
  if k + 1 < t.cells.length then
    some ⟨(t.cells.set k v.1).set (k + 1) v.2, t.trace ++ [⟨atomic, true, k, 2⟩]⟩
  else none

/-! ## Tile memory accessor

The per-lane part of a `simdgroup_matrix<real, 8, 8>` is the pair the source
reaches through `reinterpret_cast<thread vec<real, 2>&>(value)`.  The template
parameter `index` is taken wide enough for the offset not to wrap. -/

/-- Overwrites the fragment with the pair at `origin` (`vec_load2`). -/
def vec_load2 {α : Type} (block : Tile α) (tile_width : Nat) (origin : ushort2) :
    Option ((α × α) × Tile α) :=
  let src := origin.y * tile_width + origin.x
  block.load2 false src

/-- Overwrites the fragment with two elements one tile row apart
(`vec_load2_transpose`). -/
def vec_load2_transpose {α : Type} (block : Tile α) (tile_width : Nat) (origin : ushort2) :
    Option ((α × α) × Tile α) :=
  let src0 := origin.x * tile_width + origin.y
  let src1 := src0 + tile_width
  match block.load1 false src0 with
  | none => none
  | some (v0, block0) =>
    match block0.load1 false src1 with
    | none => none
    | some (v1, block1) => some ((v0, v1), block1)

/-- Adds the pair at `origin` into the fragment (`vec_accumulate2`). -/
def vec_accumulate2 {α : Type} (add : α → α → α) (value : α × α) (block : Tile α)
    (tile_width : Nat) (origin : ushort2) : Option ((α × α) × Tile α) :=
  let src := origin.y * tile_width + origin.x
  match block.load2 false src with
  | none => none
  | some (s, block1) => some ((add value.1 s.1, add value.2 s.2), block1)

/-- Writes the fragment's pair at `origin` (`vec_store2`). -/
def vec_store2 {α : Type} (value : α × α) (block : Tile α) (tile_width : Nat)
    (origin : ushort2) : Option (Tile α) :=
  let dst := origin.y * tile_width + origin.x
  block.store2 false dst value

/-- Writes the fragment's first element at `origin` (`vec_store1`). -/
def vec_store1 {α : Type} (value : α × α) (block : Tile α) (tile_width : Nat)
    (origin : ushort2) : Option (Tile α) :=
  let dst := origin.y * tile_width + origin.x
  block.store1 false dst value.1

/-! ## Atomic tile updater

Elements are bit patterns: 16 bits for `half`, 32 bits for `float`.  The
`ushort` operands of `origin.y * tile_width + origin.x` are promoted to the
32-bit signed `int` before the arithmetic.  `atomic_offset_int` is that
evaluation, with signed overflow reported as `none`.  `atomic_offset` is the
low 32 bits of the exact offset; it is the offset of the program whenever the
`int` evaluation does not overflow, that is for every pair that lies at most
`INT_MAX` elements into the tile, and the operations below embed the program
on that range.  Alignment of the pair is a caller obligation and is not
checked. -/

/-- The low 32 bits of the element offset `origin.y * tile_width + origin.x`:
the offset the atomic operations use when the promoted `int` evaluation
(`atomic_offset_int`) does not overflow. -/
def atomic_offset (tile_width : Nat) (origin : ushort2) : Nat :=
  (origin.y * tile_width + origin.x) % 4294967296

/-- The largest value of the 32-bit signed type `int`. -/
def INT_MAX : Nat := 2147483647

/-- The expression `origin.y * tile_width + origin.x` as the atomic operations
evaluate it: both `ushort` operands of the product are promoted to `int`, the
product is formed in `int`, then `origin.x` is promoted and added in `int`.  A
product or a sum above `INT_MAX` is signed overflow, undefined behaviour in
the source, and is reported as `none`. -/
def atomic_offset_int (tile_width : Nat) (origin : ushort2) : Option Nat :=
  let product := origin.y * tile_width
  if product ≤ INT_MAX then
    let sum := product + origin.x
    if sum ≤ INT_MAX then some sum else none
  else none

/-- The 32-bit word that holds a pair of 16-bit patterns, element 0 in the low
half (`as_type<uint>` of a `half2`). -/
def as_type_uint (v : Nat × Nat) : Nat :=
  v.1 % 65536 + 65536 * (v.2 % 65536)

/-- The pair of 16-bit patterns a 32-bit word holds (`as_type<half2>` of a
`uint`). -/
def as_type_half2 (w : Nat) : Nat × Nat :=
  (w % 65536, (w / 65536) % 65536)

/-- One `atomic_load_explicit` through an `atomic_uint` pointer that overlays
the half elements at offsets `k` and `k + 1`. -/
def Tile.atomic_load_uint (t : Tile Nat) (k : Nat) : Option (Nat × Tile Nat) :=
  match t.cells[k]?, t.cells[k + 1]? with
  | some lo, some hi =>
      some (as_type_uint (lo, hi), ⟨t.cells, t.trace ++ [⟨true, false, k, 2⟩]⟩)
  | _, _ => none

/-- One `atomic_store_explicit` through an `atomic_uint` pointer that overlays
the half elements at offsets `k` and `k + 1`. -/
def Tile.atomic_store_uint (t : Tile Nat) (k : Nat) (w : Nat) : Option (Tile Nat) :=
  if k + 1 < t.cells.length then
    some ⟨(t.cells.set k (w % 65536)).set (k + 1) ((w / 65536) % 65536),
          t.trace ++ [⟨true, true, k, 2⟩]⟩
  else none

/-- Whether a bit pattern with the given exponent and mantissa widths is a NaN. -/
def ieee_is_nan (exp_bits man_bits bits : Nat) : Bool :=
  (bits / 2 ^ man_bits) % 2 ^ exp_bits == 2 ^ exp_bits - 1 && bits % 2 ^ man_bits != 0

/-- Whether a bit pattern is positive or negative zero. -/
def ieee_is_zero (exp_bits man_bits bits : Nat) : Bool :=
  bits % 2 ^ (exp_bits + man_bits) == 0

/-- The floating-point operator `==` on two bit patterns: false when either is
a NaN, true for two zeros of any sign, equality of the patterns otherwise. -/
def ieee_eq (exp_bits man_bits a b : Nat) : Bool :=
  !ieee_is_nan exp_bits man_bits a && !ieee_is_nan exp_bits man_bits b &&
    (a == b || (ieee_is_zero exp_bits man_bits a && ieee_is_zero exp_bits man_bits b))

/-- Operator `==` on `half` (5 exponent bits, 10 mantissa bits). -/
def half_eq (a b : Nat) : Bool := ieee_eq 5 10 a b

/-- Operator `==` on `float` (8 exponent bits, 23 mantissa bits). -/
def float_eq (a b : Nat) : Bool := ieee_eq 8 23 a b

/-- Reports whether the pair in memory equals the fragment
(`atomic_half2_ptr::atomic_compare`). -/
def atomic_half2_ptr.atomic_compare (ptr : Tile Nat) (value : Nat × Nat)
    (tile_width : Nat) (origin : ushort2) : Option (Bool × Tile Nat) :=
  let src := atomic_offset tile_width origin
  match ptr.atomic_load_uint src with
  | none => none
  | some (_src, ptr1) =>
    let _actual := as_type_half2 _src
    let _value := value
    some (half_eq _actual.1 _value.1 && half_eq _actual.2 _value.2, ptr1)

/-- Adds the pair in memory into the fragment
(`atomic_half2_ptr::atomic_accumulate`). -/
def atomic_half2_ptr.atomic_accumulate (add : Nat → Nat → Nat) (ptr : Tile Nat)
    (value : Nat × Nat) (tile_width : Nat) (origin : ushort2) :
    Option ((Nat × Nat) × Tile Nat) :=
  let src := atomic_offset tile_width origin
  match ptr.atomic_load_uint src with
  | none => none
  | some (_src, ptr1) =>
    let _actual := as_type_half2 _src
    some ((add value.1 _actual.1, add value.2 _actual.2), ptr1)

/-- Publishes the fragment's pair (`atomic_half2_ptr::atomic_store`). -/
def atomic_half2_ptr.atomic_store (ptr : Tile Nat) (value : Nat × Nat)
    (tile_width : Nat) (origin : ushort2) : Option (Tile Nat) :=
  let dst := atomic_offset tile_width origin
  let _value := value
  let _dst := as_type_uint _value
  ptr.atomic_store_uint dst _dst

/-- Reports whether the pair in memory equals the fragment
(`atomic_float2_ptr::atomic_compare`). -/
def atomic_float2_ptr.atomic_compare (ptr : Tile Nat) (value : Nat × Nat)
    (tile_width : Nat) (origin : ushort2) : Option (Bool × Tile Nat) :=
  let src := atomic_offset tile_width origin
  let _value := value
  match ptr.load1 true (src + 0) with
  | none => none
  | some (_actual0, ptr0) =>
    match ptr0.load1 true (src + 1) with
    | none => none
    | some (_actual1, ptr1) =>
      some (float_eq _actual0 _value.1 && float_eq _actual1 _value.2, ptr1)

/-- Adds the pair in memory into the fragment
(`atomic_float2_ptr::atomic_accumulate`). -/
def atomic_float2_ptr.atomic_accumulate (add : Nat → Nat → Nat) (ptr : Tile Nat)
    (value : Nat × Nat) (tile_width : Nat) (origin : ushort2) :
    Option ((Nat × Nat) × Tile Nat) :=
  let src := atomic_offset tile_width origin
  match ptr.load1 true src with
  | none => none
  | some (_src0, ptr0) =>
    match ptr0.load1 true (src + 1) with
    | none => none
    | some (_src1, ptr1) => some ((add value.1 _src0, add value.2 _src1), ptr1)

/-- Publishes the fragment's pair (`atomic_float2_ptr::atomic_store`). -/
def atomic_float2_ptr.atomic_store (ptr : Tile Nat) (value : Nat × Nat)
    (tile_width : Nat) (origin : ushort2) : Option (Tile Nat) :=
  let src := atomic_offset tile_width origin
  let _value := value
  match ptr.store1 true (src + 0) _value.1 with
  | none => none
  | some ptr0 => ptr0.store1 true (src + 1) _value.2

/-! ## Scenarios built from the operations -/

/-- One lane of the fragment copy: the lane loads its pair from the source
tile of width 8 and stores it to the destination tile of width 8, both at the
origin the lane-position mapper gives it. -/
def copy_lane {α : Type} (st : Tile α × Tile α) (lane_id : Nat) :
    Option (Tile α × Tile α) :=
  let quad_id := lane_id / 4
  let origin : ushort2 :=
    ⟨get_simdgroup_matrix_n lane_id quad_id, get_simdgroup_matrix_m lane_id quad_id⟩
  match vec_load2 st.1 8 origin with
  | none => none
  | some (value, src1) =>
    match vec_store2 value st.2 8 origin with
    | none => none
    | some dst1 => some (src1, dst1)

/-- The fragment copy run for a list of lanes, one after the other. -/
def copy_lanes {α : Type} : List Nat → Tile α × Tile α → Option (Tile α × Tile α)
  | [], st => some st
  | lane_id :: rest, st =>
    match copy_lane st lane_id with
    | none => none
    | some st1 => copy_lanes rest st1

/-- The fragment copy run for all 32 lanes of the SIMD group. -/
def copy_fragment {α : Type} (src dst : Tile α) : Option (Tile α × Tile α) :=
  copy_lanes (List.range 32) (src, dst)

/-- The row-major buffer of a matrix with `rows` rows and `cols` columns whose
entry in row `i` and column `j` is `T i j`. -/
def row_major {α : Type} (rows cols : Nat) (T : Nat → Nat → α) : List α :=
  (List.range (rows * cols)).map (fun p => T (p / cols) (p % cols))

/-- The transpose of a matrix. -/
def transpose {α : Type} (T : Nat → Nat → α) : Nat → Nat → α :=
  fun i j => T j i

/-- The element offset of a lane's pair in a tile of width 8. -/
def lane_offset (lane_id : Nat) : Nat :=
  get_simdgroup_matrix_m lane_id (lane_id / 4) * 8 +
    get_simdgroup_matrix_n lane_id (lane_id / 4)

/-- Whether offset `p` belongs to the pair of one of the lanes of a list. -/
def covered (lanes : List Nat) (p : Nat) : Bool :=
  lanes.any (fun lane_id => p == lane_offset lane_id || p == lane_offset lane_id + 1)

/-! ## The layout documented in the header comment -/

/-- The table `Element assignment across threads` of the header comment: the
lane printed at each row and column of the fragment. -/
def element_assignment : List (List Nat) :=
  [[ 0,  0,  1,  1,  8,  8,  9,  9],
   [ 2,  2,  3,  3, 10, 10, 11, 11],
   [ 4,  4,  5,  5, 12, 12, 13, 13],
   [ 6,  6,  7,  7, 14, 14, 15, 15],
   [16, 16, 17, 17, 24, 24, 25, 25],
   [18, 18, 19, 19, 26, 26, 27, 27],
   [20, 20, 21, 21, 28, 28, 29, 29],
   [22, 22, 23, 23, 30, 30, 31, 31]]

/-- The rows `Storage format among threads` of the header comment, for quads 0
to 5: every bracket is a pair of elements, and the element printed `rc` is
written (r, c), its row and column. -/
def storage_format : List (List ((Nat × Nat) × (Nat × Nat))) :=
  [[((0, 0), (0, 1)), ((0, 2), (0, 3)), ((1, 0), (1, 1)), ((1, 2), (1, 3))],
   [((2, 0), (2, 1)), ((2, 2), (2, 3)), ((3, 0), (3, 1)), ((3, 2), (3, 3))],
   [((0, 4), (0, 5)), ((0, 6), (0, 7)), ((1, 4), (1, 5)), ((1, 6), (1, 7))],
   [((2, 4), (2, 5)), ((2, 6), (2, 7)), ((3, 4), (3, 5)), ((3, 6), (3, 7))],
   [((4, 0), (4, 1)), ((4, 2), (4, 3)), ((5, 0), (5, 1)), ((5, 2), (5, 3))],
   [((6, 0), (6, 1)), ((6, 2), (6, 3)), ((7, 0), (7, 1)), ((7, 2), (7, 3))]]

/-- The entry of a table of rows at row `i` and position `j`. -/
def table_entry {α : Type} (table : List (List α)) (i j : Nat) : Option α :=
  match table[i]? with
  | some row => row[j]?
  | none => none

/-- The element offset `origin.y * tile_width + origin.x` of the plain
accessors, in an `index` type wide enough for it not to wrap. -/
def plain_offset (tile_width : Nat) (origin : ushort2) : Nat :=
  origin.y * tile_width + origin.x

/-! ## Device transfer

An embedding of the lambda `memcpyDeviceTransfer` of
`Documentation/CppReference/main.cpp`.  A buffer is a list of 16-bit units in
address order; on the little-endian target a 32-bit element occupies two
consecutive units, the low half first.  The conversions between `float` and
`_Float16` are parameters.  An access outside a buffer is reported as `none`. -/

/-- The operand precisions the transfer distinguishes. -/
inductive GEMMOperandPrecision where
  | FP32
  | FP16
  | BF16
deriving DecidableEq

/-- A store of one 16-bit unit at index `k` of a buffer. -/
def store_unit (buf : List Nat) (k v : Nat) : Option (List Nat) :=
  if k < buf.length then some (buf.set k v) else none

/-- A load of the 32-bit element that occupies units `2 * i` and `2 * i + 1`
of a buffer. -/
def load_word (buf : List Nat) (i : Nat) : Option Nat :=
  match buf[2 * i]?, buf[2 * i + 1]? with
  | some lo, some hi => some (lo + 65536 * hi)
  | _, _ => none

/-- A store of a 32-bit element to units `2 * i` and `2 * i + 1` of a buffer. -/
def store_word (buf : List Nat) (i w : Nat) : Option (List Nat) :=
  if 2 * i + 1 < buf.length then
    some ((buf.set (2 * i) (w % 65536)).set (2 * i + 1) ((w / 65536) % 65536))
  else none

/-- The body of the loop of `memcpyDeviceTransfer` for element `i`, on the
pair of buffers (gpu, cpu). -/
def memcpyDeviceTransfer_body (float_to_half half_to_float : Nat → Nat)
    (isCPUToGPU : Bool) (type : GEMMOperandPrecision) (i : Nat)
    (bufs : List Nat × List Nat) : Option (List Nat × List Nat) :=
  let gpu := bufs.1
  let cpu := bufs.2
  match type with
  | .FP32 =>
    if isCPUToGPU then
      match load_word cpu i with
      | none => none
      | some w => (store_word gpu i w).map (fun g => (g, cpu))
    else
      match load_word gpu i with
      | none => none
      | some w => (store_word cpu i w).map (fun c => (gpu, c))
  | .FP16 =>
    if isCPUToGPU then
      match load_word cpu i with
      | none => none
      | some w => (store_unit gpu i (float_to_half w)).map (fun g => (g, cpu))
    else
      match gpu[i]? with
      | none => none
      | some h => (store_word cpu i (half_to_float h)).map (fun c => (gpu, c))
  | .BF16 =>
    if isCPUToGPU then
      match cpu[2 * i + 1]? with
      | none => none
      | some v => (store_unit gpu i v).map (fun g => (g, cpu))
    else
      match store_unit cpu (2 * i) 0 with
      | none => none
      | some cpu0 =>
        match gpu[i]? with
        | none => none
        | some v => (store_unit cpu0 (2 * i + 1) v).map (fun c => (gpu, c))

/-- The iterations `i`, `i + 1`, ... of the loop of `memcpyDeviceTransfer`,
`count` of them. -/
def memcpyDeviceTransfer_loop (float_to_half half_to_float : Nat → Nat)
    (isCPUToGPU : Bool) (type : GEMMOperandPrecision) :
    Nat → Nat → List Nat × List Nat → Option (List Nat × List Nat)
  | _, 0, bufs => some bufs
  | i, count + 1, bufs =>
    match memcpyDeviceTransfer_body float_to_half half_to_float isCPUToGPU type i bufs with
    | none => none
    | some bufs1 =>
      memcpyDeviceTransfer_loop float_to_half half_to_float isCPUToGPU type (i + 1) count bufs1

/-- The transfer of `elements` elements between the buffers
(`memcpyDeviceTransfer`); the loop `for (i = 0; i < elements; ++i)` runs
`elements` times, and not at all for a negative count. -/
def memcpyDeviceTransfer (float_to_half half_to_float : Nat → Nat)
    (gpu cpu : List Nat) (elements : Int) (isCPUToGPU : Bool)
    (type : GEMMOperandPrecision) : Option (List Nat × List Nat) :=
  memcpyDeviceTransfer_loop float_to_half half_to_float isCPUToGPU type 0 elements.toNat
    (gpu, cpu)

/-! ## Lane-position mapper: theorems -/

theorem lane_slot_coord_range :
    ∀ lane_id < 32, ∀ slot < 2,
      (lane_slot_coord lane_id slot).1 < 8 ∧ (lane_slot_coord lane_id slot).2 < 8 := by
  decide

theorem coord_lane_slot_left_inverse :
    ∀ lane_id < 32, ∀ slot < 2,
      coord_lane_slot (lane_slot_coord lane_id slot).1 (lane_slot_coord lane_id slot).2
        = (lane_id, slot) := by
  decide

theorem coord_lane_slot_right_inverse :
    ∀ r < 8, ∀ c < 8,
      (coord_lane_slot r c).1 < 32 ∧ (coord_lane_slot r c).2 < 2 ∧
        lane_slot_coord (coord_lane_slot r c).1 (coord_lane_slot r c).2 = (r, c) := by
  decide

/-- C1: with quad_id = lane_id / 4, the map from (lane, slot) to
(get_simdgroup_matrix_m, get_simdgroup_matrix_n + slot) sends the 32 x 2
lane-slots into the 8 x 8 fragment, and every coordinate of the fragment is
produced by exactly one lane-slot. -/
theorem lane_slot_bijection :
    (∀ lane_id < 32, ∀ slot < 2,
      get_simdgroup_matrix_m lane_id (lane_id / 4) < 8 ∧
      get_simdgroup_matrix_n lane_id (lane_id / 4) + slot < 8) ∧
    (∀ r < 8, ∀ c < 8, ∃! p : Nat × Nat, p.1 < 32 ∧ p.2 < 2 ∧
      get_simdgroup_matrix_m p.1 (p.1 / 4) = r ∧
      get_simdgroup_matrix_n p.1 (p.1 / 4) + p.2 = c) := by
  refine ⟨fun lane_id hl slot hs => lane_slot_coord_range lane_id hl slot hs, ?_⟩
  intro r hr c hc
  obtain ⟨h1, h2, h3⟩ := coord_lane_slot_right_inverse r hr c hc
  refine ⟨coord_lane_slot r c, ⟨h1, h2, ?_, ?_⟩, ?_⟩
  · exact congrArg Prod.fst h3
  · exact congrArg Prod.snd h3
  · rintro ⟨l, s⟩ ⟨hl, hs, hm, hn⟩
    have hinv := coord_lane_slot_left_inverse l hl s hs
    have hcoord : lane_slot_coord l s = (r, c) := by
      simp only [lane_slot_coord]
      exact Prod.ext hm hn
    rw [hcoord] at hinv
    exact hinv.symm

/-- C2: for lane_id below 32 and quad_id below 8 the two mapper functions equal
the closed formulas over the naturals (no 16-bit wrap-around), and the two
terms of n take the values 0 or 4 and 0 or 2. -/
theorem mapper_formulas (lane_id quad_id : Nat) (hl : lane_id < 32) (hq : quad_id < 8) :
    get_simdgroup_matrix_m lane_id quad_id = 4 * (quad_id / 4) + (lane_id / 2) % 4 ∧
    get_simdgroup_matrix_n lane_id quad_id = 2 * (quad_id &&& 2) + 2 * (lane_id % 2) ∧
    (2 * (quad_id &&& 2) = 0 ∨ 2 * (quad_id &&& 2) = 4) ∧
    (2 * (lane_id % 2) = 0 ∨ 2 * (lane_id % 2) = 2) := by
  have key : ∀ l < 32, ∀ q < 8,
      get_simdgroup_matrix_m l q = 4 * (q / 4) + (l / 2) % 4 ∧
      get_simdgroup_matrix_n l q = 2 * (q &&& 2) + 2 * (l % 2) ∧
      (2 * (q &&& 2) = 0 ∨ 2 * (q &&& 2) = 4) ∧
      (2 * (l % 2) = 0 ∨ 2 * (l % 2) = 2) := by
    decide
  exact key lane_id hl quad_id hq

/-- Lane 13 of quad 3: m = 2 and n = 6. -/
theorem mapper_formulas_witness :
    get_simdgroup_matrix_m 13 3 = 4 * (3 / 4) + (13 / 2) % 4 ∧
    get_simdgroup_matrix_n 13 3 = 2 * (3 &&& 2) + 2 * (13 % 2) ∧
    (2 * (3 &&& 2) = 0 ∨ 2 * (3 &&& 2) = 4) ∧
    (2 * (13 % 2) = 0 ∨ 2 * (13 % 2) = 2) :=
  mapper_formulas 13 3 (by decide) (by decide)

/-! ## Memory instructions: lemmas -/

theorem getElem_set_pair {α : Type} (cells : List α) (k p : Nat) (a b : α)
    (hk : k + 1 < cells.length) :
    ((cells.set k a).set (k + 1) b)[p]? =
      if p = k then some a else if p = k + 1 then some b else cells[p]? := by
  have hk0 : k < cells.length := by omega
  rw [List.getElem?_set, List.getElem?_set, List.length_set]
  by_cases h1 : p = k
  · subst h1
    simp [hk0]
  · by_cases h2 : p = k + 1
    · subst h2
      simp [hk]
    · have h3 : ¬ k + 1 = p := fun h => h2 h.symm
      have h4 : ¬ k = p := fun h => h1 h.symm
      simp [h1, h2, h3, h4]

theorem load2_of_getElem {α : Type} (cells : List α) (tr : List Access) (atomic : Bool)
    (k : Nat) (a b : α) (ha : cells[k]? = some a) (hb : cells[k + 1]? = some b) :
    Tile.load2 ⟨cells, tr⟩ atomic k = some ((a, b), ⟨cells, tr ++ [⟨atomic, false, k, 2⟩]⟩) := by
  simp [Tile.load2, ha, hb]

theorem load1_of_getElem {α : Type} (cells : List α) (tr : List Access) (atomic : Bool)
    (k : Nat) (a : α) (ha : cells[k]? = some a) :
    Tile.load1 ⟨cells, tr⟩ atomic k = some (a, ⟨cells, tr ++ [⟨atomic, false, k, 1⟩]⟩) := by
  simp [Tile.load1, ha]

theorem store2_of_lt {α : Type} (cells : List α) (tr : List Access) (atomic : Bool)
    (k : Nat) (v : α × α) (hk : k + 1 < cells.length) :
    Tile.store2 ⟨cells, tr⟩ atomic k v =
      some ⟨(cells.set k v.1).set (k + 1) v.2, tr ++ [⟨atomic, true, k, 2⟩]⟩ := by
  simp [Tile.store2, hk]

theorem store1_of_lt {α : Type} (cells : List α) (tr : List Access) (atomic : Bool)
    (k : Nat) (v : α) (hk : k < cells.length) :
    Tile.store1 ⟨cells, tr⟩ atomic k v =
      some ⟨cells.set k v, tr ++ [⟨atomic, true, k, 1⟩]⟩ := by
  simp [Tile.store1, hk]

theorem set_pair_self {α : Type} (cells : List α) (k : Nat) (a b : α)
    (ha : cells[k]? = some a) (hb : cells[k + 1]? = some b) :
    (cells.set k a).set (k + 1) b = cells := by
  have hk : k + 1 < cells.length := by
    rcases List.getElem?_eq_some.mp hb with ⟨h, _⟩
    exact h
  apply List.ext_getElem?
  intro p
  rw [getElem_set_pair cells k p a b hk]
  by_cases h1 : p = k
  · subst h1
    simp [ha]
  · by_cases h2 : p = k + 1
    · subst h2
      simp [hb]
    · simp [h1, h2]

/-! ## Tile memory accessor: theorems -/

/-- C4: when the offsets y*w + x and y*w + x + 1 are inside the tile, storing
with vec_store2 the pair just read by vec_load2 at the same tile width and
origin succeeds and leaves every element of the tile as it was. -/
theorem load2_store2_round_trip {α : Type} (cells : List α) (tr : List Access)
    (tile_width : Nat) (origin : ushort2)
    (h : origin.y * tile_width + origin.x + 1 < cells.length) :
    ((vec_load2 ⟨cells, tr⟩ tile_width origin).bind
        (fun r => vec_store2 r.1 r.2 tile_width origin)).map Tile.cells = some cells := by
  have h0 : origin.y * tile_width + origin.x < cells.length := by omega
  have ha := List.getElem?_eq_getElem h0
  have hb := List.getElem?_eq_getElem h
  simp only [vec_load2, vec_store2]
  rw [load2_of_getElem cells tr false _ _ _ ha hb]
  simp only [Option.some_bind]
  rw [store2_of_lt _ _ _ _ _ h]
  simp only [Option.map_some']
  rw [set_pair_self cells _ _ _ ha hb]

/-- A 2 x 3 tile, origin column 1 of row 1: the tile is unchanged. -/
theorem load2_store2_round_trip_witness :
    ((vec_load2 ⟨[10, 11, 12, 13, 14, 15], []⟩ 3 ⟨1, 1⟩).bind
        (fun r => vec_store2 r.1 r.2 3 ⟨1, 1⟩)).map Tile.cells
      = some [10, 11, 12, 13, 14, 15] :=
  load2_store2_round_trip [10, 11, 12, 13, 14, 15] [] 3 ⟨1, 1⟩ (by decide)

theorem row_major_getElem {α : Type} (rows cols : Nat) (T : Nat → Nat → α) (i j : Nat)
    (hi : i < rows) (hj : j < cols) :
    (row_major rows cols T)[i * cols + j]? = some (T i j) := by
  have hc : 0 < cols := by omega
  have hlt : i * cols + j < rows * cols := by
    have h1 : (i + 1) * cols ≤ rows * cols := Nat.mul_le_mul_right cols hi
    have h2 : (i + 1) * cols = i * cols + cols := Nat.succ_mul i cols
    omega
  have hdiv : (i * cols + j) / cols = i := by
    rw [Nat.mul_comm i cols, Nat.mul_add_div hc, Nat.div_eq_of_lt hj, Nat.add_zero]
  have hmod : (i * cols + j) % cols = j := by
    rw [Nat.mul_comm i cols, Nat.mul_add_mod, Nat.mod_eq_of_lt hj]
  unfold row_major
  rw [List.getElem?_map, List.getElem?_range hlt]
  simp only [Option.map_some', hdiv, hmod]

/-- C5: for an R x C matrix T stored row-major with tile width C and an origin
(x, y) with x + 1 < R and y < C, vec_load2_transpose on the buffer of T and
vec_load2 on the row-major buffer of the transpose of T with tile width R
return the same pair, (T x y, T (x + 1) y). -/
theorem transpose_law {α : Type} (T : Nat → Nat → α) (R C x y : Nat)
    (tr tr1 : List Access) (hx : x + 1 < R) (hy : y < C) :
    (vec_load2_transpose ⟨row_major R C T, tr⟩ C ⟨x, y⟩).map Prod.fst
        = some (T x y, T (x + 1) y) ∧
    (vec_load2 ⟨row_major C R (transpose T), tr1⟩ R ⟨x, y⟩).map Prod.fst
        = some (T x y, T (x + 1) y) ∧
    (vec_load2_transpose ⟨row_major R C T, tr⟩ C ⟨x, y⟩).map Prod.fst
        = (vec_load2 ⟨row_major C R (transpose T), tr1⟩ R ⟨x, y⟩).map Prod.fst := by
  have hx0 : x < R := by omega
  have e0 : (row_major R C T)[x * C + y]? = some (T x y) :=
    row_major_getElem R C T x y hx0 hy
  have e1 : (row_major R C T)[x * C + y + C]? = some (T (x + 1) y) := by
    have h := row_major_getElem R C T (x + 1) y hx hy
    have hidx : (x + 1) * C + y = x * C + y + C := by
      rw [Nat.succ_mul]
      omega
    rw [hidx] at h
    exact h
  have f0 : (row_major C R (transpose T))[y * R + x]? = some (T x y) :=
    row_major_getElem C R (transpose T) y x hy hx0
  have f1 : (row_major C R (transpose T))[y * R + x + 1]? = some (T (x + 1) y) :=
    row_major_getElem C R (transpose T) y (x + 1) hy hx
  have left : (vec_load2_transpose ⟨row_major R C T, tr⟩ C ⟨x, y⟩).map Prod.fst
      = some (T x y, T (x + 1) y) := by
    simp only [vec_load2_transpose]
    rw [load1_of_getElem _ _ _ _ _ e0]
    simp only []
    rw [load1_of_getElem _ _ _ _ _ e1]
    simp only [Option.map_some']
  have right : (vec_load2 ⟨row_major C R (transpose T), tr1⟩ R ⟨x, y⟩).map Prod.fst
      = some (T x y, T (x + 1) y) := by
    simp only [vec_load2]
    rw [load2_of_getElem _ _ _ _ _ _ f0 f1]
    simp only [Option.map_some']
  exact ⟨left, right, left.trans right.symm⟩

/-- A 3 x 2 matrix with entries 10 * i + j, origin (1, 1): both loads return
the entries of rows 1 and 2 in column 1. -/
theorem transpose_law_witness :
    (vec_load2_transpose ⟨row_major 3 2 (fun i j => 10 * i + j), []⟩ 2 ⟨1, 1⟩).map Prod.fst
        = some (11, 21) ∧
    (vec_load2 ⟨row_major 2 3 (transpose (fun i j => 10 * i + j)), []⟩ 3 ⟨1, 1⟩).map Prod.fst
        = some (11, 21) ∧
    (vec_load2_transpose ⟨row_major 3 2 (fun i j => 10 * i + j), []⟩ 2 ⟨1, 1⟩).map Prod.fst
        = (vec_load2 ⟨row_major 2 3 (transpose (fun i j => 10 * i + j)), []⟩ 3 ⟨1, 1⟩).map
            Prod.fst :=
  transpose_law (fun i j => 10 * i + j) 3 2 1 1 [] [] (by decide) (by decide)

/-! ## Fragment copy: theorems -/

theorem lane_offset_lt : ∀ lane_id < 32, lane_offset lane_id + 1 < 64 := by
  decide

theorem covered_all_lanes : ∀ p < 64, covered (List.range 32) p = true := by
  decide

theorem copy_lane_spec {α : Type} (s d : Tile α) (lane_id : Nat) (hl : lane_id < 32)
    (hs : s.cells.length = 64) (hd : d.cells.length = 64) :
    ∃ s1 d1, copy_lane (s, d) lane_id = some (s1, d1) ∧ s1.cells = s.cells ∧
      d1.cells.length = 64 ∧
      ∀ p, d1.cells[p]? =
        if p = lane_offset lane_id ∨ p = lane_offset lane_id + 1 then s.cells[p]?
        else d.cells[p]? := by
  obtain ⟨sc, st⟩ := s
  obtain ⟨dc, dt⟩ := d
  simp only at hs hd
  have hk := lane_offset_lt lane_id hl
  have hks : lane_offset lane_id + 1 < sc.length := by omega
  have hkd : lane_offset lane_id + 1 < dc.length := by omega
  have hks0 : lane_offset lane_id < sc.length := by omega
  have ha := List.getElem?_eq_getElem hks0
  have hb := List.getElem?_eq_getElem hks
  have hload : vec_load2 ⟨sc, st⟩ 8
      ⟨get_simdgroup_matrix_n lane_id (lane_id / 4),
       get_simdgroup_matrix_m lane_id (lane_id / 4)⟩
      = some ((sc[lane_offset lane_id], sc[lane_offset lane_id + 1]),
          ⟨sc, st ++ [⟨false, false, lane_offset lane_id, 2⟩]⟩) :=
    load2_of_getElem sc st false (lane_offset lane_id) _ _ ha hb
  have hstore : vec_store2 (sc[lane_offset lane_id], sc[lane_offset lane_id + 1]) ⟨dc, dt⟩ 8
      ⟨get_simdgroup_matrix_n lane_id (lane_id / 4),
       get_simdgroup_matrix_m lane_id (lane_id / 4)⟩
      = some ⟨(dc.set (lane_offset lane_id) sc[lane_offset lane_id]).set
            (lane_offset lane_id + 1) sc[lane_offset lane_id + 1],
          dt ++ [⟨false, true, lane_offset lane_id, 2⟩]⟩ :=
    store2_of_lt dc dt false (lane_offset lane_id) _ hkd
  refine ⟨⟨sc, st ++ [⟨false, false, lane_offset lane_id, 2⟩]⟩,
    ⟨(dc.set (lane_offset lane_id) sc[lane_offset lane_id]).set
        (lane_offset lane_id + 1) sc[lane_offset lane_id + 1],
      dt ++ [⟨false, true, lane_offset lane_id, 2⟩]⟩, ?_, rfl, ?_, ?_⟩
  · simp only [copy_lane]
    rw [hload]
    simp only []
    rw [hstore]
  · simp only [List.length_set]
    exact hd
  · intro p
    simp only []
    rw [getElem_set_pair dc _ p _ _ hkd]
    by_cases h1 : p = lane_offset lane_id
    · subst h1
      simp [ha]
    · by_cases h2 : p = lane_offset lane_id + 1
      · subst h2
        simp [hb]
      · simp [h1, h2]

theorem copy_lanes_spec {α : Type} (lanes : List Nat) :
    ∀ (s d : Tile α), (∀ l ∈ lanes, l < 32) → s.cells.length = 64 → d.cells.length = 64 →
    ∃ s1 d1, copy_lanes lanes (s, d) = some (s1, d1) ∧ s1.cells = s.cells ∧
      d1.cells.length = 64 ∧
      ∀ p, d1.cells[p]? = if covered lanes p = true then s.cells[p]? else d.cells[p]? := by
  induction lanes with
  | nil =>
    intro s d _ _ hd
    exact ⟨s, d, rfl, rfl, hd, fun p => by simp [covered]⟩
  | cons l rest ih =>
    intro s d hall hs hd
    have hl : l < 32 := hall l (List.mem_cons_self l rest)
    obtain ⟨s1, d1, hstep, hs1, hd1, hget1⟩ := copy_lane_spec s d l hl hs hd
    have hall1 : ∀ x ∈ rest, x < 32 := fun x hx => hall x (List.mem_cons_of_mem l hx)
    obtain ⟨s2, d2, hrest, hs2, hd2, hget2⟩ := ih s1 d1 hall1 (hs1 ▸ hs) hd1
    refine ⟨s2, d2, ?_, hs2.trans hs1, hd2, ?_⟩
    · simp only [copy_lanes]
      rw [hstep]
      exact hrest
    · intro p
      rw [hget2 p, hget1 p, hs1]
      by_cases hc : covered rest p = true
      · have hc1 : covered (l :: rest) p = true := by
          simp only [covered, List.any_cons, Bool.or_eq_true] at hc ⊢
          exact Or.inr hc
        simp [hc, hc1]
      · by_cases hp : p = lane_offset l ∨ p = lane_offset l + 1
        · have hc1 : covered (l :: rest) p = true := by
            simp only [covered, List.any_cons, Bool.or_eq_true, beq_iff_eq]
            exact Or.inl hp
          simp [hc, hc1, hp]
        · have hc1 : ¬ covered (l :: rest) p = true := by
            simp only [covered, List.any_cons, Bool.or_eq_true, beq_iff_eq] at hc ⊢
            rintro (h | h)
            · exact hp h
            · exact hc h
          simp [hc, hc1, hp]

/-- C3: for a 64-element source tile and a 64-element destination buffer with
arbitrary contents, running vec_load2 from the source and vec_store2 into the
destination, both with tile width 8, for every lane 0..31 at the origin
(x = get_simdgroup_matrix_n, y = get_simdgroup_matrix_m) with
quad_id = lane_id / 4 succeeds and leaves the destination equal to the source
at all 64 positions. -/
theorem copy_fragment_reproduces {α : Type} (src dst : List α) (ts td : List Access)
    (hs : src.length = 64) (hd : dst.length = 64) :
    (copy_fragment ⟨src, ts⟩ ⟨dst, td⟩).map (fun st => st.2.cells) = some src := by
  have hall : ∀ l ∈ List.range 32, l < 32 := fun l hl => List.mem_range.mp hl
  obtain ⟨s1, d1, hrun, _, hd1, hget⟩ :=
    copy_lanes_spec (List.range 32) ⟨src, ts⟩ ⟨dst, td⟩ hall hs hd
  have hcells : d1.cells = src := by
    apply List.ext_getElem?
    intro p
    by_cases hp : p < 64
    · rw [hget p]
      simp [covered_all_lanes p hp]
    · rw [List.getElem?_eq_none (by omega), List.getElem?_eq_none (by omega)]
  simp only [copy_fragment]
  rw [hrun]
  simp only [Option.map_some', hcells]

/-- The identity tile 0..63 copied over a destination of zeros. -/
theorem copy_fragment_reproduces_witness :
    (copy_fragment ⟨List.range 64, []⟩ ⟨List.replicate 64 0, []⟩).map (fun st => st.2.cells)
      = some (List.range 64) :=
  copy_fragment_reproduces (List.range 64) (List.replicate 64 0) [] [] rfl rfl

/-! ## Atomic tile updater: lemmas -/

theorem atomic_offset_eq (tile_width : Nat) (origin : ushort2) (hw : tile_width < 65536)
    (hx : origin.x < 65536) (hy : origin.y < 65536) :
    atomic_offset tile_width origin = origin.y * tile_width + origin.x := by
  have hmul : origin.y * tile_width ≤ 65535 * 65535 :=
    Nat.mul_le_mul (by omega) (by omega)
  unfold atomic_offset
  apply Nat.mod_eq_of_lt
  omega

theorem float_accumulate_eq (add : Nat → Nat → Nat) (cells : List Nat) (tr : List Access)
    (value : Nat × Nat) (tile_width : Nat) (origin : ushort2) (c0 c1 : Nat)
    (h0 : cells[atomic_offset tile_width origin]? = some c0)
    (h1 : cells[atomic_offset tile_width origin + 1]? = some c1) :
    atomic_float2_ptr.atomic_accumulate add ⟨cells, tr⟩ value tile_width origin =
      some ((add value.1 c0, add value.2 c1),
        ⟨cells, tr ++ [⟨true, false, atomic_offset tile_width origin, 1⟩] ++
          [⟨true, false, atomic_offset tile_width origin + 1, 1⟩]⟩) := by
  simp only [atomic_float2_ptr.atomic_accumulate, Tile.load1, h0, h1]

theorem float_compare_eq (cells : List Nat) (tr : List Access)
    (value : Nat × Nat) (tile_width : Nat) (origin : ushort2) (c0 c1 : Nat)
    (h0 : cells[atomic_offset tile_width origin]? = some c0)
    (h1 : cells[atomic_offset tile_width origin + 1]? = some c1) :
    atomic_float2_ptr.atomic_compare ⟨cells, tr⟩ value tile_width origin =
      some (float_eq c0 value.1 && float_eq c1 value.2,
        ⟨cells, tr ++ [⟨true, false, atomic_offset tile_width origin, 1⟩] ++
          [⟨true, false, atomic_offset tile_width origin + 1, 1⟩]⟩) := by
  simp only [atomic_float2_ptr.atomic_compare, Tile.load1, Nat.add_zero, h0, h1]

theorem float_store_eq (cells : List Nat) (tr : List Access)
    (value : Nat × Nat) (tile_width : Nat) (origin : ushort2)
    (hin : atomic_offset tile_width origin + 1 < cells.length) :
    atomic_float2_ptr.atomic_store ⟨cells, tr⟩ value tile_width origin =
      some ⟨(cells.set (atomic_offset tile_width origin) value.1).set
              (atomic_offset tile_width origin + 1) value.2,
            tr ++ [⟨true, true, atomic_offset tile_width origin, 1⟩] ++
              [⟨true, true, atomic_offset tile_width origin + 1, 1⟩]⟩ := by
  have hin0 : atomic_offset tile_width origin < cells.length := by omega
  simp only [atomic_float2_ptr.atomic_store, Tile.store1, Nat.add_zero, hin0, if_true,
    List.length_set, hin]

/-- C9 as the code has it: with the pair inside the tile, every operation of
atomic_half2_ptr issues exactly one atomic instruction, which covers both
elements of the pair (one store for atomic_store, one load for atomic_compare
and for atomic_accumulate), and every operation of atomic_float2_ptr issues
exactly two atomic instructions, one for element 0 and then one for
element 1. -/
theorem atomic_instruction_traces (add : Nat → Nat → Nat) (cells : List Nat)
    (tr : List Access) (value : Nat × Nat) (tile_width : Nat) (origin : ushort2)
    (hin : atomic_offset tile_width origin + 1 < cells.length) :
    (atomic_half2_ptr.atomic_store ⟨cells, tr⟩ value tile_width origin).map Tile.trace
      = some (tr ++ [⟨true, true, atomic_offset tile_width origin, 2⟩]) ∧
    (atomic_half2_ptr.atomic_compare ⟨cells, tr⟩ value tile_width origin).map
        (fun r => r.2.trace)
      = some (tr ++ [⟨true, false, atomic_offset tile_width origin, 2⟩]) ∧
    (atomic_half2_ptr.atomic_accumulate add ⟨cells, tr⟩ value tile_width origin).map
        (fun r => r.2.trace)
      = some (tr ++ [⟨true, false, atomic_offset tile_width origin, 2⟩]) ∧
    (atomic_float2_ptr.atomic_store ⟨cells, tr⟩ value tile_width origin).map Tile.trace
      = some (tr ++ [⟨true, true, atomic_offset tile_width origin, 1⟩,
                     ⟨true, true, atomic_offset tile_width origin + 1, 1⟩]) ∧
    (atomic_float2_ptr.atomic_compare ⟨cells, tr⟩ value tile_width origin).map
        (fun r => r.2.trace)
      = some (tr ++ [⟨true, false, atomic_offset tile_width origin, 1⟩,
                     ⟨true, false, atomic_offset tile_width origin + 1, 1⟩]) ∧
    (atomic_float2_ptr.atomic_accumulate add ⟨cells, tr⟩ value tile_width origin).map
        (fun r => r.2.trace)
      = some (tr ++ [⟨true, false, atomic_offset tile_width origin, 1⟩,
                     ⟨true, false, atomic_offset tile_width origin + 1, 1⟩]) := by
  have hin0 : atomic_offset tile_width origin < cells.length := by omega
  have h0 := List.getElem?_eq_getElem hin0
  have h1 := List.getElem?_eq_getElem hin
  refine ⟨?_, ?_, ?_, ?_, ?_, ?_⟩
  · simp only [atomic_half2_ptr.atomic_store, Tile.atomic_store_uint, hin, if_true,
      Option.map_some']
  · simp only [atomic_half2_ptr.atomic_compare, Tile.atomic_load_uint, h0, h1,
      Option.map_some']
  · simp only [atomic_half2_ptr.atomic_accumulate, Tile.atomic_load_uint, h0, h1,
      Option.map_some']
  · rw [float_store_eq cells tr value tile_width origin hin]
    simp only [Option.map_some', List.append_assoc, List.singleton_append]
  · rw [float_compare_eq cells tr value tile_width origin _ _ h0 h1]
    simp only [Option.map_some', List.append_assoc, List.singleton_append]
  · rw [float_accumulate_eq add cells tr value tile_width origin _ _ h0 h1]
    simp only [Option.map_some', List.append_assoc, List.singleton_append]

/-- A two-element tile, origin (0, 0), fragment (1, 2): one instruction per
half-precision operation, two per single-precision operation. -/
theorem atomic_instruction_traces_witness :
    (atomic_half2_ptr.atomic_store ⟨[0, 0], []⟩ (1, 2) 2 ⟨0, 0⟩).map Tile.trace
      = some ([] ++ [⟨true, true, atomic_offset 2 ⟨0, 0⟩, 2⟩]) ∧
    (atomic_half2_ptr.atomic_compare ⟨[0, 0], []⟩ (1, 2) 2 ⟨0, 0⟩).map (fun r => r.2.trace)
      = some ([] ++ [⟨true, false, atomic_offset 2 ⟨0, 0⟩, 2⟩]) ∧
    (atomic_half2_ptr.atomic_accumulate (fun a b => (a + b) % 65536) ⟨[0, 0], []⟩ (1, 2) 2
        ⟨0, 0⟩).map (fun r => r.2.trace)
      = some ([] ++ [⟨true, false, atomic_offset 2 ⟨0, 0⟩, 2⟩]) ∧
    (atomic_float2_ptr.atomic_store ⟨[0, 0], []⟩ (1, 2) 2 ⟨0, 0⟩).map Tile.trace
      = some ([] ++ [⟨true, true, atomic_offset 2 ⟨0, 0⟩, 1⟩,
                     ⟨true, true, atomic_offset 2 ⟨0, 0⟩ + 1, 1⟩]) ∧
    (atomic_float2_ptr.atomic_compare ⟨[0, 0], []⟩ (1, 2) 2 ⟨0, 0⟩).map (fun r => r.2.trace)
      = some ([] ++ [⟨true, false, atomic_offset 2 ⟨0, 0⟩, 1⟩,
                     ⟨true, false, atomic_offset 2 ⟨0, 0⟩ + 1, 1⟩]) ∧
    (atomic_float2_ptr.atomic_accumulate (fun a b => (a + b) % 65536) ⟨[0, 0], []⟩ (1, 2) 2
        ⟨0, 0⟩).map (fun r => r.2.trace)
      = some ([] ++ [⟨true, false, atomic_offset 2 ⟨0, 0⟩, 1⟩,
                     ⟨true, false, atomic_offset 2 ⟨0, 0⟩ + 1, 1⟩]) :=
  atomic_instruction_traces (fun a b => (a + b) % 65536) [0, 0] [] (1, 2) 2 ⟨0, 0⟩ (by decide)

/-- C9 fails for single precision: on a two-element tile holding (0, 0),
atomic_float2_ptr::atomic_store of the fragment (1, 2) issues two atomic
stores of one element each, not one, and the memory after the first of them
holds (1, 0), with only element 0 updated; atomic_compare and
atomic_accumulate issue two atomic loads each. -/
theorem float_store_two_instructions :
    (atomic_float2_ptr.atomic_store ⟨[0, 0], []⟩ (1, 2) 2 ⟨0, 0⟩).map Tile.trace
      = some [⟨true, true, 0, 1⟩, ⟨true, true, 1, 1⟩] ∧
    (Tile.store1 ⟨[0, 0], []⟩ true 0 1).map Tile.cells = some [1, 0] ∧
    (atomic_float2_ptr.atomic_store ⟨[0, 0], []⟩ (1, 2) 2 ⟨0, 0⟩).map
        (fun m => m.trace.length) ≠ some 1 ∧
    (atomic_float2_ptr.atomic_compare ⟨[0, 0], []⟩ (1, 2) 2 ⟨0, 0⟩).map
        (fun r => r.2.trace.length) = some 2 ∧
    (atomic_float2_ptr.atomic_accumulate (fun a b => (a + b) % 4294967296) ⟨[0, 0], []⟩ (1, 2) 2
        ⟨0, 0⟩).map (fun r => r.2.trace.length) = some 2 := by
  refine ⟨?_, ?_, ?_, ?_, ?_⟩ <;> decide

/-! ## Access footprints -/

theorem footprint_pair (atomic store : Bool) (k : Nat) :
    footprint [⟨atomic, store, k, 2⟩] = [k, k + 1] := by
  simp [footprint, Access.elements, List.range']

theorem footprint_two_singles (a0 s0 a1 s1 : Bool) (k j : Nat) :
    footprint [⟨a0, s0, k, 1⟩, ⟨a1, s1, j, 1⟩] = [k, j] := by
  simp [footprint, Access.elements, List.range']

theorem footprint_single (atomic store : Bool) (k : Nat) :
    footprint [⟨atomic, store, k, 1⟩] = [k] := by
  simp [footprint, Access.elements, List.range']

/-- C10 as the code has it: with the accessed elements inside the tile,
vec_load2, vec_accumulate2 and vec_store2 access exactly the two contiguous
elements at offsets k and k + 1 with k = origin.y * tile_width + origin.x;
vec_load2_transpose accesses exactly two elements, at offsets j and
j + tile_width with j = origin.x * tile_width + origin.y; vec_store1 accesses
exactly the element at offset k. -/
theorem accessor_footprints {α : Type} (add : α → α → α) (cells : List α) (value : α × α)
    (tile_width : Nat) (origin : ushort2)
    (h2 : origin.y * tile_width + origin.x + 1 < cells.length)
    (ht : origin.x * tile_width + origin.y + tile_width < cells.length) :
    (vec_load2 ⟨cells, []⟩ tile_width origin).map (fun r => footprint r.2.trace)
      = some [origin.y * tile_width + origin.x, origin.y * tile_width + origin.x + 1] ∧
    (vec_load2_transpose ⟨cells, []⟩ tile_width origin).map (fun r => footprint r.2.trace)
      = some [origin.x * tile_width + origin.y,
              origin.x * tile_width + origin.y + tile_width] ∧
    (vec_accumulate2 add value ⟨cells, []⟩ tile_width origin).map
        (fun r => footprint r.2.trace)
      = some [origin.y * tile_width + origin.x, origin.y * tile_width + origin.x + 1] ∧
    (vec_store2 value ⟨cells, []⟩ tile_width origin).map (fun m => footprint m.trace)
      = some [origin.y * tile_width + origin.x, origin.y * tile_width + origin.x + 1] ∧
    (vec_store1 value ⟨cells, []⟩ tile_width origin).map (fun m => footprint m.trace)
      = some [origin.y * tile_width + origin.x] := by
  have h20 : origin.y * tile_width + origin.x < cells.length := by omega
  have ht0 : origin.x * tile_width + origin.y < cells.length := by omega
  have a0 := List.getElem?_eq_getElem h20
  have a1 := List.getElem?_eq_getElem h2
  have b0 := List.getElem?_eq_getElem ht0
  have b1 := List.getElem?_eq_getElem ht
  refine ⟨?_, ?_, ?_, ?_, ?_⟩
  · simp only [vec_load2]
    rw [load2_of_getElem cells [] false _ _ _ a0 a1]
    simp only [Option.map_some', List.nil_append, footprint_pair]
  · simp only [vec_load2_transpose]
    rw [load1_of_getElem cells [] false _ _ b0]
    simp only []
    rw [load1_of_getElem cells _ false _ _ b1]
    simp only [Option.map_some', List.nil_append, List.singleton_append, footprint_two_singles]
  · simp only [vec_accumulate2]
    rw [load2_of_getElem cells [] false _ _ _ a0 a1]
    simp only [Option.map_some', List.nil_append, footprint_pair]
  · simp only [vec_store2]
    rw [store2_of_lt cells [] false _ value h2]
    simp only [Option.map_some', List.nil_append, footprint_pair]
  · simp only [vec_store1]
    rw [store1_of_lt cells [] false _ value.1 h20]
    simp only [Option.map_some', List.nil_append, footprint_single]

/-- A 17-element tile of width 8, origin (1, 0), fragment (5, 6): the plain
operations touch offsets 1 and 2, the transposed load offsets 8 and 16, the
single store offset 1. -/
theorem accessor_footprints_witness :
    (vec_load2 ⟨List.range 17, []⟩ 8 ⟨1, 0⟩).map (fun r => footprint r.2.trace)
      = some [0 * 8 + 1, 0 * 8 + 1 + 1] ∧
    (vec_load2_transpose ⟨List.range 17, []⟩ 8 ⟨1, 0⟩).map (fun r => footprint r.2.trace)
      = some [1 * 8 + 0, 1 * 8 + 0 + 8] ∧
    (vec_accumulate2 (fun a b => a + b) (5, 6) ⟨List.range 17, []⟩ 8 ⟨1, 0⟩).map
        (fun r => footprint r.2.trace)
      = some [0 * 8 + 1, 0 * 8 + 1 + 1] ∧
    (vec_store2 (5, 6) ⟨List.range 17, []⟩ 8 ⟨1, 0⟩).map (fun m => footprint m.trace)
      = some [0 * 8 + 1, 0 * 8 + 1 + 1] ∧
    (vec_store1 (5, 6) ⟨List.range 17, []⟩ 8 ⟨1, 0⟩).map (fun m => footprint m.trace)
      = some [0 * 8 + 1] :=
  accessor_footprints (fun a b => a + b) (List.range 17) (5, 6) 8 ⟨1, 0⟩
    (by decide) (by decide)

/-- C10 fails for vec_load2_transpose: on a 16-element tile of width 8 at
origin (0, 0) it accesses offsets 0 and 8, which are not of the form k, k + 1. -/
theorem transpose_load_not_contiguous :
    (vec_load2_transpose ⟨List.range 16, []⟩ 8 ⟨0, 0⟩).map (fun r => footprint r.2.trace)
      = some [0, 8] ∧
    ¬ ∃ k, (vec_load2_transpose ⟨List.range 16, []⟩ 8 ⟨0, 0⟩).map
        (fun r => footprint r.2.trace) = some [k, k + 1] := by
  have h : (vec_load2_transpose ⟨List.range 16, []⟩ 8 ⟨0, 0⟩).map
      (fun r => footprint r.2.trace) = some [0, 8] := by decide
  refine ⟨h, ?_⟩
  rintro ⟨k, hk⟩
  rw [h] at hk
  simp only [Option.some.injEq, List.cons.injEq, and_true] at hk
  omega

/-! ## Store frame and plain accumulate -/

/-- C11: with the pair inside the tile, vec_store2 succeeds and yields a tile
whose elements at offsets y*w + x and y*w + x + 1 are v0 and v1 and whose
every other element is unchanged; vec_store1 succeeds and yields a tile whose
element at offset y*w + x is v0 and whose every other element, offset
y*w + x + 1 included, is unchanged. -/
theorem store_frame {α : Type} (cells : List α) (tr : List Access) (tile_width : Nat)
    (origin : ushort2) (value : α × α)
    (hin : origin.y * tile_width + origin.x + 1 < cells.length) :
    (∃ t2, vec_store2 value ⟨cells, tr⟩ tile_width origin = some t2 ∧
      t2.cells.length = cells.length ∧
      t2.cells[origin.y * tile_width + origin.x]? = some value.1 ∧
      t2.cells[origin.y * tile_width + origin.x + 1]? = some value.2 ∧
      ∀ p, p ≠ origin.y * tile_width + origin.x → p ≠ origin.y * tile_width + origin.x + 1 →
        t2.cells[p]? = cells[p]?) ∧
    (∃ t1, vec_store1 value ⟨cells, tr⟩ tile_width origin = some t1 ∧
      t1.cells.length = cells.length ∧
      t1.cells[origin.y * tile_width + origin.x]? = some value.1 ∧
      t1.cells[origin.y * tile_width + origin.x + 1]?
        = cells[origin.y * tile_width + origin.x + 1]? ∧
      ∀ p, p ≠ origin.y * tile_width + origin.x → t1.cells[p]? = cells[p]?) := by
  have hin0 : origin.y * tile_width + origin.x < cells.length := by omega
  constructor
  · refine ⟨_, store2_of_lt cells tr false _ value hin, ?_, ?_, ?_, ?_⟩
    · simp only [List.length_set]
    · rw [getElem_set_pair cells _ _ _ _ hin]
      simp
    · rw [getElem_set_pair cells _ _ _ _ hin]
      simp
    · intro p h1 h2
      rw [getElem_set_pair cells _ _ _ _ hin]
      simp [h1, h2]
  · refine ⟨_, store1_of_lt cells tr false _ value.1 hin0, ?_, ?_, ?_, ?_⟩
    · simp only [List.length_set]
    · simp only []
      rw [List.getElem?_set]
      simp [hin0]
    · simp only []
      rw [List.getElem?_set_ne (by omega)]
    · intro p h1
      simp only []
      rw [List.getElem?_set_ne (fun h => h1 h.symm)]

/-- A 2 x 3 tile, origin column 1 of row 1, fragment (7, 9): vec_store2 writes
offsets 4 and 5, vec_store1 writes offset 4 only. -/
theorem store_frame_witness :
    (vec_store2 (7, 9) ⟨[10, 11, 12, 13, 14, 15], []⟩ 3 ⟨1, 1⟩).map Tile.cells
      = some [10, 11, 12, 13, 7, 9] ∧
    (vec_store1 (7, 9) ⟨[10, 11, 12, 13, 14, 15], []⟩ 3 ⟨1, 1⟩).map Tile.cells
      = some [10, 11, 12, 13, 7, 15] ∧
    (∃ t2, vec_store2 (7, 9) ⟨[10, 11, 12, 13, 14, 15], []⟩ 3 ⟨1, 1⟩ = some t2 ∧
      t2.cells[1 * 3 + 1]? = some 7) :=
  have h := store_frame [10, 11, 12, 13, 14, 15] [] 3 ⟨1, 1⟩ (7, 9) (by decide)
  ⟨by decide, by decide, h.1.imp (fun _ ht => ⟨ht.1, ht.2.2.1⟩)⟩

/-- C12: when the tile holds t0 and t1 at offsets y*w + x and y*w + x + 1,
vec_accumulate2 succeeds, leaves the fragment holding (f0 + t0, f1 + t1) for
the adder of the element type, and leaves every element of the tile
unchanged. -/
theorem plain_accumulate {α : Type} (add : α → α → α) (cells : List α) (tr : List Access)
    (tile_width : Nat) (origin : ushort2) (value : α × α) (t0 t1 : α)
    (h0 : cells[origin.y * tile_width + origin.x]? = some t0)
    (h1 : cells[origin.y * tile_width + origin.x + 1]? = some t1) :
    (vec_accumulate2 add value ⟨cells, tr⟩ tile_width origin).map (fun r => (r.1, r.2.cells))
      = some ((add value.1 t0, add value.2 t1), cells) := by
  simp only [vec_accumulate2]
  rw [load2_of_getElem cells tr false _ _ _ h0 h1]
  simp only [Option.map_some']

/-- A 2 x 3 tile, origin column 1 of row 1, fragment (1, 2): the fragment
becomes (1 + 14, 2 + 15) and the tile is unchanged. -/
theorem plain_accumulate_witness :
    (vec_accumulate2 (fun a b => a + b) (1, 2) ⟨[10, 11, 12, 13, 14, 15], []⟩ 3 ⟨1, 1⟩).map
        (fun r => (r.1, r.2.cells))
      = some ((15, 17), [10, 11, 12, 13, 14, 15]) :=
  plain_accumulate (fun a b => a + b) [10, 11, 12, 13, 14, 15] [] 3 ⟨1, 1⟩ (1, 2) 14 15
    rfl rfl

/-! ## Quad layout -/

theorem quad_block (q : Nat) (hq : q < 8) :
    ∀ r < 8, ∀ c < 8,
      ((4 * (q / 4) + 2 * (q % 2) ≤ r ∧ r < 4 * (q / 4) + 2 * (q % 2) + 2 ∧
        4 * ((q / 2) % 2) ≤ c ∧ c < 4 * ((q / 2) % 2) + 4) ↔
       ∃ u < 4, ∃ s < 2, get_simdgroup_matrix_m (4 * q + u) q = r ∧
         get_simdgroup_matrix_n (4 * q + u) q + s = c) := by
  have k3a : ∀ q < 8, ∀ dr < 2, ∀ dc < 4,
      get_simdgroup_matrix_m (4 * q + (2 * dr + dc / 2)) q
        = 4 * (q / 4) + 2 * (q % 2) + dr ∧
      get_simdgroup_matrix_n (4 * q + (2 * dr + dc / 2)) q + dc % 2
        = 4 * ((q / 2) % 2) + dc := by
    decide
  have k3b : ∀ q < 8, ∀ u < 4, ∀ s < 2,
      4 * (q / 4) + 2 * (q % 2) ≤ get_simdgroup_matrix_m (4 * q + u) q ∧
      get_simdgroup_matrix_m (4 * q + u) q < 4 * (q / 4) + 2 * (q % 2) + 2 ∧
      4 * ((q / 2) % 2) ≤ get_simdgroup_matrix_n (4 * q + u) q + s ∧
      get_simdgroup_matrix_n (4 * q + u) q + s < 4 * ((q / 2) % 2) + 4 := by
    decide
  intro r _ c _
  constructor
  · rintro ⟨b1, b2, b3, b4⟩
    obtain ⟨w1, w2⟩ := k3a q hq (r - (4 * (q / 4) + 2 * (q % 2))) (by omega)
      (c - 4 * ((q / 2) % 2)) (by omega)
    refine ⟨2 * (r - (4 * (q / 4) + 2 * (q % 2))) + (c - 4 * ((q / 2) % 2)) / 2, by omega,
      (c - 4 * ((q / 2) % 2)) % 2, by omega, ?_, ?_⟩
    · rw [w1]
      omega
    · rw [w2]
      omega
  · rintro ⟨u, hu, s, hs, e1, e2⟩
    have hb := k3b q hq u hu s hs
    rw [e1, e2] at hb
    exact hb

/-- C13: for quad q below 8 and thread t below 4, lane 4q + t maps to
m = r0 + t / 2 and n = c0 + 2 * (t mod 2) with r0 = 4 * (q / 4) + 2 * (q mod 2)
and c0 = 4 * ((q / 2) mod 2), so threads 0, 1 share the upper row and threads
2, 3 the lower row of the quad's block.  The four lanes of a quad give four
distinct (m, n) pairs, their eight elements are exactly the block of rows r0,
r0 + 1 and columns c0 .. c0 + 3, and the two quads 2j, 2j + 1 together cover
exactly the 4 x 4 quadrant with row j / 2 and column j mod 2 (quads 0, 1
top-left, 2, 3 top-right, 4, 5 bottom-left, 6, 7 bottom-right). -/
theorem quad_layout (q t : Nat) (hq : q < 8) (ht : t < 4) :
    get_simdgroup_matrix_m (4 * q + t) q = (4 * (q / 4) + 2 * (q % 2)) + t / 2 ∧
    get_simdgroup_matrix_n (4 * q + t) q = 4 * ((q / 2) % 2) + 2 * (t % 2) ∧
    (4 * q + t) / 4 = q ∧
    (∀ u < 4, get_simdgroup_matrix_m (4 * q + u) q = get_simdgroup_matrix_m (4 * q + t) q →
      get_simdgroup_matrix_n (4 * q + u) q = get_simdgroup_matrix_n (4 * q + t) q → u = t) ∧
    (∀ r < 8, ∀ c < 8,
      ((4 * (q / 4) + 2 * (q % 2) ≤ r ∧ r < 4 * (q / 4) + 2 * (q % 2) + 2 ∧
        4 * ((q / 2) % 2) ≤ c ∧ c < 4 * ((q / 2) % 2) + 4) ↔
       ∃ u < 4, ∃ s < 2, get_simdgroup_matrix_m (4 * q + u) q = r ∧
         get_simdgroup_matrix_n (4 * q + u) q + s = c)) ∧
    (∀ r < 8, ∀ c < 8,
      (r / 4 = (q / 2) / 2 ∧ c / 4 = (q / 2) % 2) ↔
       ∃ p < 8, p / 2 = q / 2 ∧ ∃ u < 4, ∃ s < 2, get_simdgroup_matrix_m (4 * p + u) p = r ∧
         get_simdgroup_matrix_n (4 * p + u) p + s = c) := by
  have k1 : ∀ q < 8, ∀ t < 4,
      get_simdgroup_matrix_m (4 * q + t) q = (4 * (q / 4) + 2 * (q % 2)) + t / 2 ∧
      get_simdgroup_matrix_n (4 * q + t) q = 4 * ((q / 2) % 2) + 2 * (t % 2) ∧
      (4 * q + t) / 4 = q := by
    decide
  have k2 : ∀ q < 8, ∀ t < 4, ∀ u < 4,
      get_simdgroup_matrix_m (4 * q + u) q = get_simdgroup_matrix_m (4 * q + t) q →
      get_simdgroup_matrix_n (4 * q + u) q = get_simdgroup_matrix_n (4 * q + t) q → u = t := by
    decide
  have k5 : ∀ r < 8, ∀ c < 8,
      (r / 4 = (q / 2) / 2 ∧ c / 4 = (q / 2) % 2) ↔
       ∃ p < 8, p / 2 = q / 2 ∧ ∃ u < 4, ∃ s < 2, get_simdgroup_matrix_m (4 * p + u) p = r ∧
         get_simdgroup_matrix_n (4 * p + u) p + s = c := by
    intro r hr c hc
    constructor
    · rintro ⟨e1, e2⟩
      have hp : 2 * (q / 2) + (r % 4) / 2 < 8 := by omega
      refine ⟨2 * (q / 2) + (r % 4) / 2, hp, by omega, ?_⟩
      apply (quad_block _ hp r hr c hc).mp
      omega
    · rintro ⟨p, hp, hpq, hex⟩
      have hb := (quad_block p hp r hr c hc).mpr hex
      omega
  obtain ⟨a1, a2, a3⟩ := k1 q hq t ht
  exact ⟨a1, a2, a3, k2 q hq t ht, quad_block q hq, k5⟩

/-- Quad 3, thread 2 is lane 14: row 3, column 4, in the top-right quadrant. -/
theorem quad_layout_witness :
    get_simdgroup_matrix_m 14 3 = 3 ∧ get_simdgroup_matrix_n 14 3 = 4 :=
  have h := quad_layout 3 2 (by decide) (by decide)
  ⟨h.1, h.2.1⟩

/-- C15 as the code has it: for lane_id = 5 with quad_id = 5 / 4 = 1,
get_simdgroup_matrix_m returns 2 and get_simdgroup_matrix_n returns 2, so the
lane serves row 2, columns 2 and 3, the elements 22, 23 of quad 1 in the
documented diagram; the elements 20, 21 of quad 1 are served by lane 4. -/
theorem lane_five_scenario :
    5 / 4 = 1 ∧
    get_simdgroup_matrix_m 5 (5 / 4) = 2 ∧ get_simdgroup_matrix_n 5 (5 / 4) = 2 ∧
    lane_slot_coord 5 0 = (2, 2) ∧ lane_slot_coord 5 1 = (2, 3) ∧
    lane_slot_coord 4 0 = (2, 0) ∧ lane_slot_coord 4 1 = (2, 1) := by
  decide

/-- C15 fails on the column: get_simdgroup_matrix_n returns 2, not 0, for
lane 5 of quad 1. -/
theorem lane_five_column :
    get_simdgroup_matrix_n 5 (5 / 4) = 2 ∧ get_simdgroup_matrix_n 5 (5 / 4) ≠ 0 := by
  decide

/-- C14: the documented table `Element assignment across threads` agrees with
the code at all 64 entries: the lane printed at row r and column c is
L = 16 * (r / 4) + 8 * (c / 4) + 2 * (r mod 4) + (c mod 4) / 2, and
get_simdgroup_matrix_m (L, L / 4) = r and
get_simdgroup_matrix_n (L, L / 4) = c - c mod 2.  The rows of
`Storage format among threads` for quads 0 to 5 have four pairs each, and the
pair of thread t in the row of quad q is (m, n), (m, n + 1) of lane 4q + t. -/
theorem documented_tables_agree :
    (∀ r < 8, ∀ c < 8,
      table_entry element_assignment r c
        = some (16 * (r / 4) + 8 * (c / 4) + 2 * (r % 4) + (c % 4) / 2) ∧
      get_simdgroup_matrix_m (16 * (r / 4) + 8 * (c / 4) + 2 * (r % 4) + (c % 4) / 2)
          ((16 * (r / 4) + 8 * (c / 4) + 2 * (r % 4) + (c % 4) / 2) / 4) = r ∧
      get_simdgroup_matrix_n (16 * (r / 4) + 8 * (c / 4) + 2 * (r % 4) + (c % 4) / 2)
          ((16 * (r / 4) + 8 * (c / 4) + 2 * (r % 4) + (c % 4) / 2) / 4) = c - c % 2) ∧
    storage_format.map List.length = [4, 4, 4, 4, 4, 4] ∧
    (∀ q < 6, ∀ t < 4,
      table_entry storage_format q t
        = some ((get_simdgroup_matrix_m (4 * q + t) ((4 * q + t) / 4),
                 get_simdgroup_matrix_n (4 * q + t) ((4 * q + t) / 4)),
                (get_simdgroup_matrix_m (4 * q + t) ((4 * q + t) / 4),
                 get_simdgroup_matrix_n (4 * q + t) ((4 * q + t) / 4) + 1))) := by
  refine ⟨?_, ?_, ?_⟩
  · decide
  · decide
  · decide

/-! ## Alignment, agreement of the two paths, offset range -/

theorem offset_parity (tile_width x y : Nat) :
    (y * tile_width + x) % 2 = ((y % 2) * (tile_width % 2) + x % 2) % 2 := by
  rw [Nat.add_mod, Nat.mul_mod]
  simp [Nat.add_mod]

theorem atomic_offset_parity (tile_width : Nat) (origin : ushort2) :
    atomic_offset tile_width origin % 2 = (origin.y * tile_width + origin.x) % 2 := by
  unfold atomic_offset
  exact Nat.mod_mod_of_dvd _ (by decide)

theorem plain_aligned_iff (tile_width x : Nat) :
    (∀ y < 65536, plain_offset tile_width ⟨x, y⟩ % 2 = 0) ↔
      (x % 2 = 0 ∧ tile_width % 2 = 0) := by
  constructor
  · intro h
    have e0 := h 0 (by decide)
    have e1 := h 1 (by decide)
    simp only [plain_offset, Nat.zero_mul, Nat.zero_add, Nat.one_mul] at e0 e1
    omega
  · rintro ⟨hx, hw⟩ y _
    simp only [plain_offset]
    rw [offset_parity, hx, hw]
    simp

/-- C16: for a 16-bit tile width w and origin column x, the element offset
y*w + x of vec_load2, vec_accumulate2, vec_store2 and of the atomic operations
is even for every 16-bit origin row y if and only if x is even and w is even;
with an even x and an odd w the offset of row 1 is odd. -/
theorem pair_alignment {α : Type} (tile_width x : Nat)
    (hw : tile_width < 65536) (hx : x < 65536) :
    ((∀ y < 65536, plain_offset tile_width ⟨x, y⟩ % 2 = 0) ↔
      (x % 2 = 0 ∧ tile_width % 2 = 0)) ∧
    ((∀ y < 65536, atomic_offset tile_width ⟨x, y⟩ % 2 = 0) ↔
      (x % 2 = 0 ∧ tile_width % 2 = 0)) ∧
    (x % 2 = 0 → tile_width % 2 = 1 →
      plain_offset tile_width ⟨x, 1⟩ % 2 = 1 ∧ atomic_offset tile_width ⟨x, 1⟩ % 2 = 1) ∧
    (∀ (add : α → α → α) (block : Tile α) (value : α × α) (y : Nat),
      vec_load2 block tile_width ⟨x, y⟩ = block.load2 false (plain_offset tile_width ⟨x, y⟩) ∧
      (vec_accumulate2 add value block tile_width ⟨x, y⟩).map (fun r => r.2)
        = (block.load2 false (plain_offset tile_width ⟨x, y⟩)).map (fun r => r.2) ∧
      vec_store2 value block tile_width ⟨x, y⟩
        = block.store2 false (plain_offset tile_width ⟨x, y⟩) value) ∧
    (∀ (ptr : Tile Nat) (value : Nat × Nat) (y : Nat), y < 65536 →
      atomic_offset tile_width ⟨x, y⟩ = y * tile_width + x ∧
      atomic_half2_ptr.atomic_store ptr value tile_width ⟨x, y⟩
        = ptr.atomic_store_uint (atomic_offset tile_width ⟨x, y⟩) (as_type_uint value) ∧
      atomic_float2_ptr.atomic_store ptr value tile_width ⟨x, y⟩
        = (ptr.store1 true (atomic_offset tile_width ⟨x, y⟩) value.1).bind
            (fun p => p.store1 true (atomic_offset tile_width ⟨x, y⟩ + 1) value.2)) := by
  have hplain := plain_aligned_iff tile_width x
  refine ⟨hplain, ?_, ?_, ?_, ?_⟩
  · constructor
    · intro h
      apply hplain.mp
      intro y hy
      have := h y hy
      rw [atomic_offset_parity] at this
      exact this
    · intro h y hy
      rw [atomic_offset_parity]
      exact hplain.mpr h y hy
  · intro h0 h1
    have e : plain_offset tile_width ⟨x, 1⟩ % 2 = 1 := by
      simp only [plain_offset, Nat.one_mul]
      omega
    refine ⟨e, ?_⟩
    rw [atomic_offset_parity]
    exact e
  · intro add block value y
    refine ⟨rfl, ?_, rfl⟩
    simp only [vec_accumulate2, plain_offset]
    cases block.load2 false (y * tile_width + x) <;> rfl
  · intro ptr value y hy
    refine ⟨atomic_offset_eq tile_width ⟨x, y⟩ hw hx hy, rfl, ?_⟩
    simp only [atomic_float2_ptr.atomic_store, Nat.add_zero]
    cases ptr.store1 true (atomic_offset tile_width ⟨x, y⟩) value.1 <;> rfl

/-- Tile width 4 and origin column 2: every row gives an even offset on both
paths; tile width 3 and origin column 2: row 1 gives an odd offset. -/
theorem pair_alignment_witness :
    (∀ y < 65536, plain_offset 4 ⟨2, y⟩ % 2 = 0) ∧
    (∀ y < 65536, atomic_offset 4 ⟨2, y⟩ % 2 = 0) ∧
    (plain_offset 3 ⟨2, 1⟩ % 2 = 1 ∧ atomic_offset 3 ⟨2, 1⟩ % 2 = 1) :=
  have h4 := @pair_alignment Nat 4 2 (by decide) (by decide)
  have h3 := @pair_alignment Nat 3 2 (by decide) (by decide)
  ⟨h4.1.mpr ⟨rfl, rfl⟩, h4.2.1.mpr ⟨rfl, rfl⟩, h3.2.2.1 rfl rfl⟩

theorem atomic_offset_int_eq (tile_width : Nat) (origin : ushort2) :
    atomic_offset_int tile_width origin =
      if origin.y * tile_width + origin.x ≤ INT_MAX
      then some (origin.y * tile_width + origin.x) else none := by
  unfold atomic_offset_int INT_MAX
  by_cases h : origin.y * tile_width + origin.x ≤ 2147483647
  · have hp : origin.y * tile_width ≤ 2147483647 := by omega
    simp only [hp, h, if_true]
  · by_cases hp : origin.y * tile_width ≤ 2147483647
    · simp only [hp, h, if_true, if_false]
    · simp only [hp, h, if_false]

theorem atomic_offset_of_int (tile_width : Nat) (origin : ushort2) (k : Nat)
    (h : atomic_offset_int tile_width origin = some k) :
    k = origin.y * tile_width + origin.x ∧ k ≤ INT_MAX ∧
      atomic_offset tile_width origin = k := by
  rw [atomic_offset_int_eq] at h
  by_cases hle : origin.y * tile_width + origin.x ≤ INT_MAX
  · rw [if_pos hle] at h
    have hk : origin.y * tile_width + origin.x = k := Option.some.inj h
    subst hk
    refine ⟨rfl, hle, ?_⟩
    unfold atomic_offset
    apply Nat.mod_eq_of_lt
    unfold INT_MAX at hle
    omega
  · rw [if_neg hle] at h
    exact absurd h (by simp)

theorem offset_below_two_pow_32 (tile_width : Nat) (origin : ushort2)
    (hw : tile_width < 65536) (hx : origin.x < 65536) (hy : origin.y < 65536) :
    origin.y * tile_width + origin.x + 1 < 4294967296 := by
  have hmul : origin.y * tile_width ≤ 65535 * 65535 :=
    Nat.mul_le_mul (by omega) (by omega)
  omega

/-- C18 on the code: at tile_width = origin.x = origin.y = 65535 the exact
offsets 4294901760 and 4294901761 are below 2^32, as the claim says, but the
program forms origin.y * tile_width in the 32-bit signed int, where
65535 * 65535 = 4294836225 exceeds INT_MAX = 2147483647, so the evaluation
overflows and yields no offset.  The smallest failing square is
46341 * 46341; at 46340 * 46340 the evaluation is still exact. -/
theorem offset_int_overflow :
    65535 * 65535 + 65535 = 4294901760 ∧
    65535 * 65535 + 65535 + 1 < 2 ^ 32 ∧
    INT_MAX < 65535 * 65535 ∧
    atomic_offset_int 65535 ⟨65535, 65535⟩ = none ∧
    atomic_offset 65535 ⟨65535, 65535⟩ = 4294901760 ∧
    atomic_offset_int 46341 ⟨0, 46341⟩ = none ∧
    atomic_offset_int 46340 ⟨0, 46340⟩ = some (46340 * 46340) := by
  decide

/-! ## Device transfer: theorems -/

theorem bf16_to_gpu_loop (f2h h2f : Nat → Nat) (cpu : List Nat) (n : Nat) :
    ∀ (i : Nat) (gpu : List Nat), i + n ≤ gpu.length → 2 * (i + n) ≤ cpu.length →
    ∃ gpu1, memcpyDeviceTransfer_loop f2h h2f true .BF16 i n (gpu, cpu) = some (gpu1, cpu) ∧
      gpu1.length = gpu.length ∧
      ∀ j, gpu1[j]? = if i ≤ j ∧ j < i + n then cpu[2 * j + 1]? else gpu[j]? := by
  induction n with
  | zero =>
    intro i gpu _ _
    refine ⟨gpu, rfl, rfl, fun j => ?_⟩
    rw [if_neg (by omega)]
  | succ n ih =>
    intro i gpu hg hc
    have hci : 2 * i + 1 < cpu.length := by omega
    have hgi : i < gpu.length := by omega
    have hv := List.getElem?_eq_getElem hci
    have hbody : memcpyDeviceTransfer_body f2h h2f true .BF16 i (gpu, cpu)
        = some (gpu.set i cpu[2 * i + 1], cpu) := by
      simp [memcpyDeviceTransfer_body, store_unit, hv, hgi]
    obtain ⟨gpu1, hrun, hlen, hget⟩ := ih (i + 1) (gpu.set i cpu[2 * i + 1])
      (by simp only [List.length_set]; omega) (by omega)
    refine ⟨gpu1, ?_, ?_, ?_⟩
    · simp only [memcpyDeviceTransfer_loop]
      rw [hbody]
      exact hrun
    · rw [hlen, List.length_set]
    · intro j
      rw [hget j]
      by_cases hji : j = i
      · subst hji
        rw [if_neg (by omega), if_pos (by omega), List.getElem?_set, if_pos rfl, if_pos hgi, hv]
      · by_cases hr : i + 1 ≤ j ∧ j < i + 1 + n
        · rw [if_pos hr, if_pos (by omega)]
        · rw [if_neg hr, if_neg (by omega), List.getElem?_set_ne (fun h => hji h.symm)]

theorem bf16_to_cpu_loop (f2h h2f : Nat → Nat) (gpu : List Nat) (n : Nat) :
    ∀ (i : Nat) (cpu : List Nat), i + n ≤ gpu.length → 2 * (i + n) ≤ cpu.length →
    ∃ cpu1, memcpyDeviceTransfer_loop f2h h2f false .BF16 i n (gpu, cpu) = some (gpu, cpu1) ∧
      cpu1.length = cpu.length ∧
      ∀ p, cpu1[p]? =
        if 2 * i ≤ p ∧ p < 2 * (i + n) then (if p % 2 = 0 then some 0 else gpu[p / 2]?)
        else cpu[p]? := by
  induction n with
  | zero =>
    intro i cpu _ _
    refine ⟨cpu, rfl, rfl, fun p => ?_⟩
    rw [if_neg (by omega)]
  | succ n ih =>
    intro i cpu hg hc
    have hci : 2 * i + 1 < cpu.length := by omega
    have hci0 : 2 * i < cpu.length := by omega
    have hgi : i < gpu.length := by omega
    have hv := List.getElem?_eq_getElem hgi
    have hbody : memcpyDeviceTransfer_body f2h h2f false .BF16 i (gpu, cpu)
        = some (gpu, (cpu.set (2 * i) 0).set (2 * i + 1) gpu[i]) := by
      simp [memcpyDeviceTransfer_body, store_unit, hv, hci, hci0]
    obtain ⟨cpu1, hrun, hlen, hget⟩ := ih (i + 1) ((cpu.set (2 * i) 0).set (2 * i + 1) gpu[i])
      (by omega) (by simp only [List.length_set]; omega)
    refine ⟨cpu1, ?_, ?_, ?_⟩
    · simp only [memcpyDeviceTransfer_loop]
      rw [hbody]
      exact hrun
    · rw [hlen, List.length_set, List.length_set]
    · intro p
      rw [hget p, getElem_set_pair cpu (2 * i) p 0 gpu[i] hci]
      by_cases h0 : p = 2 * i
      · subst h0
        rw [if_neg (by omega), if_pos rfl, if_pos (by omega), if_pos (by omega)]
      · by_cases h1 : p = 2 * i + 1
        · subst h1
          have hdiv : (2 * i + 1) / 2 = i := by omega
          rw [if_neg (by omega), if_neg (by omega), if_pos rfl, if_pos (by omega),
            if_neg (by omega), hdiv, hv]
        · by_cases hr : 2 * (i + 1) ≤ p ∧ p < 2 * (i + 1 + n)
          · have hr2 : 2 * i ≤ p ∧ p < 2 * (i + (n + 1)) := by omega
            rw [if_pos hr, if_pos hr2]
          · have hr2 : ¬ (2 * i ≤ p ∧ p < 2 * (i + (n + 1))) := by omega
            rw [if_neg hr, if_neg h0, if_neg h1, if_neg hr2]

theorem load_word_of_units (buf : List Nat) (i lo hi : Nat)
    (h0 : buf[2 * i]? = some lo) (h1 : buf[2 * i + 1]? = some hi) :
    load_word buf i = some (lo + 65536 * hi) := by
  simp only [load_word, h0, h1]

/-- C19: in memcpyDeviceTransfer with type BF16, for every element count
whose elements lie inside both buffers and CPU halves that are 16-bit values,
CPU-to-GPU succeeds, leaves the CPU buffer unchanged and stores the high 16
bits of CPU word i into GPU slot i for every i below the count; GPU-to-CPU
succeeds, leaves the GPU buffer unchanged and sets CPU word i to
(GPU slot i) * 2^16 with low half 0; CPU-to-GPU followed by GPU-to-CPU
replaces every transferred CPU word by itself with its low 16 bits cleared;
GPU-to-CPU followed by CPU-to-GPU returns the GPU buffer itself. -/
theorem bf16_transfer (f2h h2f : Nat → Nat) (gpu cpu : List Nat) (elements : Int)
    (hg : elements.toNat ≤ gpu.length) (hc : 2 * elements.toNat ≤ cpu.length)
    (hu : ∀ v ∈ cpu, v < 65536) :
    (∃ gpu1, memcpyDeviceTransfer f2h h2f gpu cpu elements true .BF16 = some (gpu1, cpu) ∧
      (∀ i < elements.toNat, ∃ w, load_word cpu i = some w ∧ gpu1[i]? = some (w / 65536)) ∧
      ∃ cpu2, memcpyDeviceTransfer f2h h2f gpu1 cpu elements false .BF16 = some (gpu1, cpu2) ∧
        ∀ i < elements.toNat, ∃ w, load_word cpu i = some w ∧
          load_word cpu2 i = some (w - w % 65536)) ∧
    (∃ cpu1, memcpyDeviceTransfer f2h h2f gpu cpu elements false .BF16 = some (gpu, cpu1) ∧
      (∀ i < elements.toNat, ∃ g, gpu[i]? = some g ∧ cpu1[2 * i]? = some 0 ∧
        load_word cpu1 i = some (g * 2 ^ 16)) ∧
      memcpyDeviceTransfer f2h h2f gpu cpu1 elements true .BF16 = some (gpu, cpu1)) := by
  constructor
  · obtain ⟨gpu1, hrun, hlen, hget⟩ :=
      bf16_to_gpu_loop f2h h2f cpu elements.toNat 0 gpu (by omega) (by omega)
    have hhigh : ∀ i < elements.toNat, ∃ lo hi, cpu[2 * i]? = some lo ∧
        cpu[2 * i + 1]? = some hi ∧ lo < 65536 ∧ gpu1[i]? = some hi := by
      intro i hi
      have h0 : 2 * i < cpu.length := by omega
      have h1 : 2 * i + 1 < cpu.length := by omega
      have e0 := List.getElem?_eq_getElem h0
      have e1 := List.getElem?_eq_getElem h1
      refine ⟨_, _, e0, e1, hu _ (List.getElem?_mem e0), ?_⟩
      rw [hget i, if_pos (by omega), e1]
    refine ⟨gpu1, hrun, ?_, ?_⟩
    · intro i hi
      obtain ⟨lo, hh, e0, e1, hlo, eg⟩ := hhigh i hi
      refine ⟨_, load_word_of_units cpu i lo hh e0 e1, ?_⟩
      rw [eg]
      congr 1
      omega
    · obtain ⟨cpu2, hrun2, _, hget2⟩ :=
        bf16_to_cpu_loop f2h h2f gpu1 elements.toNat 0 cpu (by omega) (by omega)
      refine ⟨cpu2, hrun2, ?_⟩
      intro i hi
      obtain ⟨lo, hh, e0, e1, hlo, eg⟩ := hhigh i hi
      refine ⟨_, load_word_of_units cpu i lo hh e0 e1, ?_⟩
      have c0 : cpu2[2 * i]? = some 0 := by
        have hr : 2 * 0 ≤ 2 * i ∧ 2 * i < 2 * (0 + elements.toNat) := by omega
        have hm : 2 * i % 2 = 0 := by omega
        rw [hget2 (2 * i), if_pos hr, if_pos hm]
      have c1 : cpu2[2 * i + 1]? = some hh := by
        have hr : 2 * 0 ≤ 2 * i + 1 ∧ 2 * i + 1 < 2 * (0 + elements.toNat) := by omega
        have hm : ¬ (2 * i + 1) % 2 = 0 := by omega
        have hd : (2 * i + 1) / 2 = i := by omega
        rw [hget2 (2 * i + 1), if_pos hr, if_neg hm, hd, eg]
      rw [load_word_of_units cpu2 i 0 hh c0 c1]
      congr 1
      omega
  · obtain ⟨cpu1, hrun, hlen, hget⟩ :=
      bf16_to_cpu_loop f2h h2f gpu elements.toNat 0 cpu (by omega) (by omega)
    have hunits : ∀ i < elements.toNat, ∃ g, gpu[i]? = some g ∧ cpu1[2 * i]? = some 0 ∧
        cpu1[2 * i + 1]? = some g := by
      intro i hi
      have hgi : i < gpu.length := by omega
      have eg := List.getElem?_eq_getElem hgi
      refine ⟨_, eg, ?_, ?_⟩
      · have hr : 2 * 0 ≤ 2 * i ∧ 2 * i < 2 * (0 + elements.toNat) := by omega
        have hm : 2 * i % 2 = 0 := by omega
        rw [hget (2 * i), if_pos hr, if_pos hm]
      · have hr : 2 * 0 ≤ 2 * i + 1 ∧ 2 * i + 1 < 2 * (0 + elements.toNat) := by omega
        have hm : ¬ (2 * i + 1) % 2 = 0 := by omega
        have hd : (2 * i + 1) / 2 = i := by omega
        rw [hget (2 * i + 1), if_pos hr, if_neg hm, hd, eg]
    refine ⟨cpu1, hrun, ?_, ?_⟩
    · intro i hi
      obtain ⟨g, eg, c0, c1⟩ := hunits i hi
      refine ⟨g, eg, c0, ?_⟩
      rw [load_word_of_units cpu1 i 0 g c0 c1]
      congr 1
      omega
    · obtain ⟨gpu2, hrun2, hlen2, hget2⟩ :=
        bf16_to_gpu_loop f2h h2f cpu1 elements.toNat 0 gpu (by omega) (by omega)
      have hsame : gpu2 = gpu := by
        apply List.ext_getElem?
        intro j
        rw [hget2 j]
        by_cases hj : j < elements.toNat
        · obtain ⟨g, eg, _, c1⟩ := hunits j hj
          have hr : 0 ≤ j ∧ j < 0 + elements.toNat := by omega
          rw [if_pos hr, c1, eg]
        · have hr : ¬ (0 ≤ j ∧ j < 0 + elements.toNat) := by omega
          rw [if_neg hr]
      rw [hsame] at hrun2
      exact hrun2

/-- Three elements, GPU slots (9, 9, 9), CPU halves 1 .. 8: CPU-to-GPU puts
the high half of CPU word 1 into GPU slot 1, and GPU-to-CPU followed by
CPU-to-GPU returns the GPU buffer. -/
theorem bf16_transfer_witness :
    (∃ gpu1, memcpyDeviceTransfer id id [9, 9, 9] [1, 2, 3, 4, 5, 6, 7, 8] 3 true .BF16
        = some (gpu1, [1, 2, 3, 4, 5, 6, 7, 8]) ∧
      ∃ w, load_word [1, 2, 3, 4, 5, 6, 7, 8] 1 = some w ∧ gpu1[1]? = some (w / 65536)) ∧
    (∃ cpu1, memcpyDeviceTransfer id id [9, 9, 9] [1, 2, 3, 4, 5, 6, 7, 8] 3 false .BF16
        = some ([9, 9, 9], cpu1) ∧
      memcpyDeviceTransfer id id [9, 9, 9] cpu1 3 true .BF16 = some ([9, 9, 9], cpu1)) :=
  have h := bf16_transfer id id [9, 9, 9] [1, 2, 3, 4, 5, 6, 7, 8] 3
    (by decide) (by decide) (by decide)
  ⟨h.1.imp (fun _ hg => ⟨hg.1, hg.2.1 1 (by decide)⟩),
   h.2.imp (fun _ hc => ⟨hc.1, hc.2.2⟩)⟩

end SimdgroupMatrix
